import Mathlib

/-!
Verification of the numerical core of the compas repository: the force-density
solver `fd` (src/compas/numerical/fd/__fd_cpp/src/main.cpp), the dynamic
relaxation solver `drx_solver_c` (src/compas_hpc/algorithms/drx_c.c) and the
centroid smoother `smooth_centroid`
(src/compas/geometry/algorithms/_smoothing_cpp/src/main.cpp).

Doubles are modelled as real numbers; C arrays are modelled as total functions
from indices, and the solvers' in-place mutation as explicit state passing.
The `while` loop of `drx_solver_c` is modelled with a fuel argument that
dominates the guard `ts <= steps`, so the fuel never cuts a run short.
-/

noncomputable section

namespace Compas

/-! ### Vector kernel (src/compas_hpc/geometry/basic_c.h) -/

/-- A gsl_vector of size 3, as used throughout basic_c.h. -/
structure Vec3 where
  x : ℝ
  y : ℝ
  z : ℝ

/-- basic_c.h `length_vector`: Euclidean norm via gsl_blas_dnrm2. -/
def length_vector (u : Vec3) : ℝ := Real.sqrt (u.x ^ 2 + u.y ^ 2 + u.z ^ 2)

/-- basic_c.h `length_vector_squared`. -/
def length_vector_squared (u : Vec3) : ℝ := u.x ^ 2 + u.y ^ 2 + u.z ^ 2

/-- basic_c.h `scale_vector` (gsl_vector_scale): componentwise u * a. -/
def scale_vector (u : Vec3) (a : ℝ) : Vec3 := ⟨u.x * a, u.y * a, u.z * a⟩

/-- basic_c.h `normalise_vector`: scale by 1/|u|. -/
def normalise_vector (u : Vec3) : Vec3 := scale_vector u (1 / length_vector u)

/-- basic_c.h `add_vectors`. -/
def add_vectors (u v : Vec3) : Vec3 := ⟨u.x + v.x, u.y + v.y, u.z + v.z⟩

/-- basic_c.h `subtract_vectors`. -/
def subtract_vectors (u v : Vec3) : Vec3 := ⟨u.x - v.x, u.y - v.y, u.z - v.z⟩

/-- basic_c.h `dot_vectors`. -/
def dot_vectors (u v : Vec3) : ℝ := u.x * v.x + u.y * v.y + u.z * v.z

/-- basic_c.h `cross_vectors`: right-handed cross product. -/
def cross_vectors (u v : Vec3) : Vec3 :=
  ⟨u.y * v.z - u.z * v.y, u.z * v.x - u.x * v.z, u.x * v.y - u.y * v.x⟩

/-- basic_c.h `vector_from_pointer`: read three consecutive entries. -/
def vector_from_pointer (X : ℕ → ℝ) (a : ℕ) : Vec3 := ⟨X a, X (a + 1), X (a + 2)⟩

/-- gsl_pow_2. -/
def gsl_pow_2 (a : ℝ) : ℝ := a ^ 2

/-- gsl_hypot3: Euclidean norm of a 3-vector. -/
def gsl_hypot3 (a b c : ℝ) : ℝ := Real.sqrt (a ^ 2 + b ^ 2 + c ^ 2)

/-- gsl_isnan over the real-number model of doubles: the reals have no NaN,
so the predicate is identically false.  (IEEE-specific behaviour of the
original is outside this embedding.) -/
def gsl_isnan (_ : ℝ) : Bool := false

/-! ### smooth_centroid (src/compas/geometry/algorithms/_smoothing_cpp/src/main.cpp) -/

/-- One Jacobi smoothing sweep (the body of the `k` loop of `smooth_centroid`,
lines 28-56): all reads go to the snapshot `xyz` taken at the start of the
sweep, and a vertex is rewritten to its neighbours' centroid only when its
fixed flag is zero.  The neighbour count `nbrs i` is accumulated as the
divisor `c`. -/
def smoothSweep (v : ℕ) (nbrs : ℕ → ℕ) (fixed : ℕ → ℤ) (neighbours : ℕ → ℕ → ℕ)
    (verts : ℕ → ℕ → ℝ) : ℕ → ℕ → ℝ := fun i c =>
  if i < v ∧ c < 3 ∧ fixed i = 0 then
    (∑ j ∈ Finset.range (nbrs i), verts (neighbours i j) c) / (nbrs i : ℝ)
  else verts i c

/-- The `k` loop of `smooth_centroid`: `steps` remaining sweeps, `k` the
current iteration index.  Returns the final coordinates together with the
list of arguments passed to the per-iteration callback `func` (invoked once
at the end of each sweep, line 58). -/
def smoothGo (v : ℕ) (nbrs : ℕ → ℕ) (fixed : ℕ → ℤ) (neighbours : ℕ → ℕ → ℕ) :
    ℕ → ℕ → (ℕ → ℕ → ℝ) → (ℕ → ℕ → ℝ) × List ℕ
  | 0, _, verts => (verts, [])
  | steps + 1, k, verts =>
    let out := smoothGo v nbrs fixed neighbours steps (k + 1)
      (smoothSweep v nbrs fixed neighbours verts)
    (out.1, k :: out.2)

/-- `smooth_centroid(v, nbrs, fixed, vertices, neighbours, kmax, func)`:
performs `kmax` sweeps and returns the final coordinates and the callback
trace (the successive values of `k` handed to `func`). -/
def smooth_centroid (v : ℕ) (nbrs : ℕ → ℕ) (fixed : ℕ → ℤ) (verts : ℕ → ℕ → ℝ)
    (neighbours : ℕ → ℕ → ℕ) (kmax : ℕ) : (ℕ → ℕ → ℝ) × List ℕ :=
  smoothGo v nbrs fixed neighbours kmax 0 verts

/-! ### fd (src/compas/numerical/fd/__fd_cpp/src/main.cpp)

The solver builds the dense matrices C, Q, partitions by fixity, forms
`A = Ci^T * Q * Ci` and `b = Pi - Ci^T * Q * Cf * Xf`, solves `A Xi = b`
with Eigen's colPivHouseholderQr (an external library routine, modelled
below as an arbitrary `solve` parameter) and writes the rows of `Xi` back
to `vertices[free[i]]`.  Matrices are total functions zero outside their
dimensions. -/

/-- Dense product of a `p × k` and a `k × q` matrix: only the inner
dimension `k` matters for the sum. -/
def matMul (k : ℕ) (A B : ℕ → ℕ → ℝ) : ℕ → ℕ → ℝ := fun i j =>
  ∑ t ∈ Finset.range k, A i t * B t j

/-- The connectivity matrix C (main.cpp lines 50-54): row i has -1 at column
`edges[i][0]` and +1 at column `edges[i][1]`; the +1 is written second, so it
wins when the two endpoints coincide. -/
def fdC (nume : ℕ) (edges : ℕ → ℕ → ℕ) : ℕ → ℕ → ℝ := fun i j =>
  if i < nume then
    (if j = edges i 1 then 1 else if j = edges i 0 then -1 else 0)
  else 0

/-- The diagonal force-density matrix Q (line 53). -/
def fdQ (nume : ℕ) (q : ℕ → ℝ) : ℕ → ℕ → ℝ := fun i j =>
  if i < nume ∧ j = i then q i else 0

/-- The coordinate matrix X copied from `vertices` (lines 56-59). -/
def fdX (numv : ℕ) (vertices : ℕ → ℕ → ℝ) : ℕ → ℕ → ℝ := fun i c =>
  if i < numv ∧ c < 3 then vertices i c else 0

/-- The load matrix P copied from `loads` (lines 60-62). -/
def fdP (numv : ℕ) (loads : ℕ → ℕ → ℝ) : ℕ → ℕ → ℝ := fun i c =>
  if i < numv ∧ c < 3 then loads i c else 0

/-- igl::slice of P at the free rows (line 65). -/
def fdPi (numv numfix : ℕ) (loads : ℕ → ℕ → ℝ) (free : ℕ → ℕ) : ℕ → ℕ → ℝ :=
  fun r c => if r < numv - numfix ∧ c < 3 then fdP numv loads (free r) c else 0

/-- igl::slice of X at the fixed rows (line 66). -/
def fdXf (numv numfix : ℕ) (vertices : ℕ → ℕ → ℝ) (fixed : ℕ → ℕ) : ℕ → ℕ → ℝ :=
  fun r c => if r < numfix ∧ c < 3 then fdX numv vertices (fixed r) c else 0

/-- igl::slice of P at the fixed rows (line 67); computed by the source but
never used afterwards. -/
def fdPf (numv numfix : ℕ) (loads : ℕ → ℕ → ℝ) (fixed : ℕ → ℕ) : ℕ → ℕ → ℝ :=
  fun r c => if r < numfix ∧ c < 3 then fdP numv loads (fixed r) c else 0

/-- igl::slice of C at the free columns (line 68). -/
def fdCi (nume numv numfix : ℕ) (edges : ℕ → ℕ → ℕ) (free : ℕ → ℕ) : ℕ → ℕ → ℝ :=
  fun r c => if r < nume ∧ c < numv - numfix then fdC nume edges r (free c) else 0

/-- igl::slice of C at the fixed columns (line 69). -/
def fdCf (nume numfix : ℕ) (edges : ℕ → ℕ → ℕ) (fixed : ℕ → ℕ) : ℕ → ℕ → ℝ :=
  fun r c => if r < nume ∧ c < numfix then fdC nume edges r (fixed c) else 0

/-- The reduced stiffness `A = Ci^T * Q * Ci` (line 73). -/
def fdA (numv nume numfix : ℕ) (edges : ℕ → ℕ → ℕ) (q : ℕ → ℝ) (free : ℕ → ℕ) :
    ℕ → ℕ → ℝ :=
  matMul nume (fun i j => fdCi nume numv numfix edges free j i)
    (matMul nume (fdQ nume q) (fdCi nume numv numfix edges free))

/-- The right-hand side `b = Pi - Ci^T * Q * Cf * Xf` (line 74). -/
def fdb (numv nume numfix : ℕ) (vertices : ℕ → ℕ → ℝ) (edges : ℕ → ℕ → ℕ)
    (loads : ℕ → ℕ → ℝ) (q : ℕ → ℝ) (fixed free : ℕ → ℕ) : ℕ → ℕ → ℝ := fun r c =>
  fdPi numv numfix loads free r c -
    matMul nume (fun i j => fdCi nume numv numfix edges free j i)
      (matMul nume (fdQ nume q)
        (matMul numfix (fdCf nume numfix edges fixed)
          (fdXf numv numfix vertices fixed))) r c

/-- The write-back loop (lines 83-87): row `free[k]` of `vertices` receives
row `k` of `Xi`; a later iteration overwrites an earlier one when `free`
repeats an index. -/
def fdWrite (free : ℕ → ℕ) (Xi : ℕ → ℕ → ℝ) : ℕ → (ℕ → ℕ → ℝ) → ℕ → ℕ → ℝ
  | 0, verts => verts
  | k + 1, verts => fun i c =>
    if i = free k ∧ c < 3 then Xi k c else fdWrite free Xi k verts i c

/-- `fd(numv, nume, numfix, vertices, edges, loads, q, fixed, free)`.
`solve` stands for Eigen's `colPivHouseholderQr().solve`, an external
library call; everything else follows the source.  `numfree` is derived as
`numv - numfix` (line 15); the solver takes no separate parameter for it. -/
def fd (solve : (ℕ → ℕ → ℝ) → (ℕ → ℕ → ℝ) → ℕ → ℕ → ℝ) (numv nume numfix : ℕ)
    (vertices : ℕ → ℕ → ℝ) (edges : ℕ → ℕ → ℕ) (loads : ℕ → ℕ → ℝ) (q : ℕ → ℝ)
    (fixed free : ℕ → ℕ) : ℕ → ℕ → ℝ :=
  fdWrite free
    (solve (fdA numv nume numfix edges q free)
      (fdb numv nume numfix vertices edges loads q fixed free))
    (numv - numfix) vertices

/-! ### drx_solver_c (src/compas_hpc/algorithms/drx_c.c) -/

/-- The parameter list of `drx_solver_c` (lines 15-47).  Sizes and index
arrays are naturals; `steps`, `summary` and `beams` keep their C signedness. -/
structure DrxInput where
  tol : ℝ
  steps : ℤ
  summary : ℤ
  m : ℕ
  n : ℕ
  u : ℕ → ℕ
  v : ℕ → ℕ
  X : ℕ → ℝ
  f0 : ℕ → ℝ
  l0 : ℕ → ℝ
  k0 : ℕ → ℝ
  ind_c : ℕ → ℕ
  ind_t : ℕ → ℕ
  ind_c_n : ℕ
  ind_t_n : ℕ
  B : ℕ → ℝ
  P : ℕ → ℝ
  S : ℕ → ℝ
  rows : ℕ → ℕ
  cols : ℕ → ℕ
  vals : ℕ → ℝ
  nv : ℕ
  M : ℕ → ℝ
  factor : ℝ
  V : ℕ → ℝ
  inds : ℕ → ℕ
  indi : ℕ → ℕ
  indf : ℕ → ℕ
  EIx : ℕ → ℝ
  EIy : ℕ → ℝ
  beams : ℤ
  nb : ℕ

/-- The mutable state of a `drx_solver_c` run: the in-place arrays X, V, S
and the loop-carried scalars. -/
structure DrxState where
  X : ℕ → ℝ
  V : ℕ → ℝ
  S : ℕ → ℝ
  Uo : ℝ
  res : ℝ
  ts : ℤ

/-- Coordinate difference of edge i in component c (lines 124-126):
`X[3 v[i] + c] - X[3 u[i] + c]`. -/
def edge_d (inp : DrxInput) (X : ℕ → ℝ) (c i : ℕ) : ℝ :=
  X (3 * inp.v i + c) - X (3 * inp.u i + c)

/-- Current length of edge i (line 127). -/
def edge_l (inp : DrxInput) (X : ℕ → ℝ) (i : ℕ) : ℝ :=
  gsl_hypot3 (edge_d inp X 0 i) (edge_d inp X 1 i) (edge_d inp X 2 i)

/-- Axial force of edge i (line 128): `f[i] = f0[i] + k0[i] * (l - l0[i])`. -/
def edge_f (inp : DrxInput) (X : ℕ → ℝ) (i : ℕ) : ℝ :=
  inp.f0 i + inp.k0 i * (edge_l inp X i - inp.l0 i)

/-- Cartesian force component c of edge i (lines 129-132): `d * (f[i]/l)`. -/
def edge_fcomp (inp : DrxInput) (X : ℕ → ℝ) (c i : ℕ) : ℝ :=
  edge_d inp X c i * (edge_f inp X i / edge_l inp X i)

/-- The tension-only phase (lines 135-147): for each loop index
`i < ind_t_n`, if `f[i] < 0` the component `g[i]` is zeroed.  Note that the
source indexes `f` and the components by the loop counter `i` itself; the
`ind_t` array is never read. -/
def unilateralT (ind_t_n : ℕ) (f g : ℕ → ℝ) : ℕ → ℝ := fun i =>
  if i < ind_t_n ∧ f i < 0 then 0 else g i

/-- The compression-only phase (lines 149-161): for each loop index
`i < ind_c_n`, if `f[i] > 0` the component `g[i]` is zeroed; again the
`ind_c` array is never read. -/
def unilateralC (ind_c_n : ℕ) (f g : ℕ → ℝ) : ℕ → ℝ := fun i =>
  if i < ind_c_n ∧ 0 < f i then 0 else g i

/-- Component c of the edge forces after both unilateral phases. -/
def edge_fc2 (inp : DrxInput) (X : ℕ → ℝ) (c : ℕ) : ℕ → ℝ :=
  unilateralC inp.ind_c_n (edge_f inp X)
    (unilateralT inp.ind_t_n (edge_f inp X) (edge_fcomp inp X c))

/-- Shear directions `ua`, `ub` of beam triple i after all the scalings of
lines 180-223. -/
def beam_ua_ub (inp : DrxInput) (X : ℕ → ℝ) (i : ℕ) : Vec3 × Vec3 :=
  let Xs := vector_from_pointer X (inp.inds i * 3)
  let Xi := vector_from_pointer X (inp.indi i * 3)
  let Xf := vector_from_pointer X (inp.indf i * 3)
  let Qa := subtract_vectors Xi Xs
  let Qb := subtract_vectors Xf Xi
  let Qc := subtract_vectors Xf Xs
  let Qn := cross_vectors Qa Qb
  let mu := scale_vector (subtract_vectors Xf Xs) 0.5
  let La := length_vector Qa
  let Lb := length_vector Qb
  let Lc := length_vector Qc
  let LQn := length_vector Qn
  let Lmu := length_vector mu
  let alpha := Real.arccos ((gsl_pow_2 La + gsl_pow_2 Lb - gsl_pow_2 Lc) / (2 * La * Lb))
  let kappa := 2 * Real.sin alpha / Lc
  let ex := scale_vector Qn (1 / LQn)
  let ez := scale_vector mu (1 / Lmu)
  let ey := cross_vectors ez ex
  let K := scale_vector Qn (kappa / LQn)
  let Kx := scale_vector (scale_vector ex (dot_vectors K ex)) (inp.EIx i)
  let Ky := scale_vector (scale_vector ey (dot_vectors K ey)) (inp.EIy i)
  let Mc := add_vectors Kx Ky
  let ua0 := normalise_vector (cross_vectors Mc Qa)
  let ub0 := normalise_vector (cross_vectors Mc Qb)
  let c1 := cross_vectors Qa ua0
  let c2 := cross_vectors Qb ub0
  let Lc1 := length_vector c1
  let Lc2 := length_vector c2
  let Ms := length_vector_squared Mc
  (scale_vector ua0 (Ms * Lc1 / (La * dot_vectors Mc c1)),
   scale_vector ub0 (Ms * Lc2 / (Lb * dot_vectors Mc c2)))

/-- The NaN scan of lines 232-244: triple i is flagged when any of the six
components of `Sa`/`Sb` (that is, of `ua`/`ub`) is NaN. -/
def beam_nan (inp : DrxInput) (X : ℕ → ℝ) (i : ℕ) : Bool :=
  gsl_isnan (beam_ua_ub inp X i).1.x || gsl_isnan (beam_ua_ub inp X i).1.y ||
  gsl_isnan (beam_ua_ub inp X i).1.z || gsl_isnan (beam_ua_ub inp X i).2.x ||
  gsl_isnan (beam_ua_ub inp X i).2.y || gsl_isnan (beam_ua_ub inp X i).2.z

/-- Add `val` at index `idx` of the array `T`. -/
def addAt (T : ℕ → ℝ) (idx : ℕ) (val : ℝ) : ℕ → ℝ := fun j =>
  if j = idx then T idx + val else T j

/-- The accumulation loop of lines 246-261 over the first `k` beam triples:
unflagged triples add `ua` at the start node, `-(ua+ub)` at the middle node
and `ub` at the finish node, componentwise. -/
def beamAccum (inp : DrxInput) (X : ℕ → ℝ) : ℕ → (ℕ → ℝ) → ℕ → ℝ
  | 0, S => S
  | i + 1, S =>
    let T := beamAccum inp X i S
    if beam_nan inp X i then T else
      let a := inp.inds i * 3
      let b := inp.indi i * 3
      let c := inp.indf i * 3
      let ua := (beam_ua_ub inp X i).1
      let ub := (beam_ua_ub inp X i).2
      addAt (addAt (addAt
        (addAt (addAt (addAt
          (addAt (addAt (addAt T a ua.x) b (-(ua.x + ub.x))) c ub.x)
          (a + 1) ua.y) (b + 1) (-(ua.y + ub.y))) (c + 1) ub.y)
        (a + 2) ua.z) (b + 2) (-(ua.z + ub.z))) (c + 2) ub.z

/-- The beam phase (lines 163-262): when `beams` is nonzero, `S[0..3n)` is
zeroed and the beam contributions are accumulated; otherwise `S` is left
untouched. -/
def beamPhase (inp : DrxInput) (X S : ℕ → ℝ) : ℕ → ℝ :=
  if inp.beams ≠ 0 then
    beamAccum inp X inp.nb (fun j => if j < 3 * inp.n then 0 else S j)
  else S

/-- The sparse scatter of lines 272-277 over the first `k` entries of the
coordinate triples `(rows, cols, vals)`:
`fr[rows[t]] += vals[t] * g[cols[t]]` starting from the zeroed array. -/
def frAccum (rows cols : ℕ → ℕ) (vals g : ℕ → ℝ) : ℕ → ℕ → ℝ
  | 0 => fun _ => 0
  | k + 1 => addAt (frAccum rows cols vals g k) (rows k) (vals k * g (cols k))

/-- Residual component array for coordinate c (x: c = 0, y: 1, z: 2). -/
def fr (inp : DrxInput) (X : ℕ → ℝ) (c : ℕ) : ℕ → ℝ :=
  frAccum inp.rows inp.cols inp.vals (edge_fc2 inp X c) inp.nv

/-- The residual at DOF j (lines 286-288): for j = 3i + c this is
`(P[j] - S[j] - fr_c[i]) * B[j]`. -/
def drxR (inp : DrxInput) (X S : ℕ → ℝ) (j : ℕ) : ℝ :=
  (inp.P j - S j - fr inp X (j % 3) (j / 3)) * inp.B j

/-- The velocity update of lines 291-293: `V[j] += R_j / (M[j/3] * factor)`
for the 3n DOFs. -/
def drxVnew (inp : DrxInput) (X S V : ℕ → ℝ) : ℕ → ℝ := fun j =>
  if j < 3 * inp.n then V j + drxR inp X S j / (inp.M (j / 3) * inp.factor)
  else V j

/-- The residual norm `Rn` accumulated over the nodes (line 289). -/
def drxRn (inp : DrxInput) (X S : ℕ → ℝ) : ℝ :=
  ∑ i ∈ Finset.range inp.n,
    gsl_hypot3 (drxR inp X S (3 * i)) (drxR inp X S (3 * i + 1))
      (drxR inp X S (3 * i + 2))

/-- The kinetic energy `Un` accumulated over the nodes (line 294), using the
already-updated velocities. -/
def drxUn (inp : DrxInput) (X S V : ℕ → ℝ) : ℝ :=
  ∑ i ∈ Finset.range inp.n,
    inp.M i * inp.factor *
      (gsl_pow_2 (drxVnew inp X S V (3 * i)) + gsl_pow_2 (drxVnew inp X S V (3 * i + 1)) +
        gsl_pow_2 (drxVnew inp X S V (3 * i + 2)))

/-- The shear array after the beam phase of the iteration starting at s. -/
def drxS2 (inp : DrxInput) (s : DrxState) : ℕ → ℝ := beamPhase inp s.X s.S

/-- The velocities after the update and the kinetic-damping check of lines
297-307: when `Un < Uo` every one of the 3n velocity entries is zeroed. -/
def drxV2 (inp : DrxInput) (s : DrxState) : ℕ → ℝ :=
  if drxUn inp s.X (drxS2 inp s) s.V < s.Uo then
    fun j => if j < 3 * inp.n then 0 else drxVnew inp s.X (drxS2 inp s) s.V j
  else drxVnew inp s.X (drxS2 inp s) s.V

/-- One iteration of the while loop of `drx_solver_c` (lines 117-323):
axial forces, unilateral phases, beam phase, residual assembly, velocity
update, kinetic damping, position advance, and the updates of `Uo`, `res`
and `ts`. -/
def drxStep (inp : DrxInput) (s : DrxState) : DrxState where
  X := fun j => if j < 3 * inp.n then s.X j + drxV2 inp s j else s.X j
  V := drxV2 inp s
  S := drxS2 inp s
  Uo := drxUn inp s.X (drxS2 inp s) s.V
  res := drxRn inp s.X (drxS2 inp s) / (inp.n : ℝ)
  ts := s.ts + 1

/-- The while loop with guard `ts <= steps && res > tol`, driven by fuel.
Since `ts` starts at 0 and increases by one each iteration, fuel
`(steps+1).toNat` makes the fuel run out exactly when the guard
`ts <= steps` fails, so this is the source's loop. -/
def drxLoop (inp : DrxInput) : ℕ → DrxState → DrxState
  | 0, s => s
  | fuel + 1, s =>
    if s.ts ≤ inp.steps ∧ s.res > inp.tol then drxLoop inp fuel (drxStep inp s)
    else s

/-- The initial state (lines 113-115): `ts = 0`, `Uo = 0`,
`res = 1000 * tol`, and the caller-supplied X, V, S. -/
def drxInit (inp : DrxInput) : DrxState :=
  ⟨inp.X, inp.V, inp.S, 0, 1000 * inp.tol, 0⟩

/-- Fuel dominating the guard `ts <= steps`. -/
def drxFuel (inp : DrxInput) : ℕ := (inp.steps + 1).toNat

/-- A full `drx_solver_c` run: the state at exit of the while loop. -/
def drxRun (inp : DrxInput) : DrxState := drxLoop inp (drxFuel inp) (drxInit inp)

/-- The terminal progress output (lines 325-328): the solver's only write to
standard output.  One line with `ts - 1` and `res` is produced exactly when
`summary == 1`; the solver makes no other external calls (in particular it
has no callback parameter). -/
def drxOutput (inp : DrxInput) : Option (ℤ × ℝ) :=
  if inp.summary = 1 then some ((drxRun inp).ts - 1, (drxRun inp).res) else none

/-! ### Concrete inputs used by the counterexamples and witnesses -/

/-- A minimal DRX input: one node, no edges, no beams, unit tolerance and
masses, zero loads and velocities, `steps = 0` (the guard `ts <= steps`
still admits a first iteration). -/
def drxBase : DrxInput where
  tol := 1
  steps := 0
  summary := 0
  m := 0
  n := 1
  u := fun _ => 0
  v := fun _ => 0
  X := fun _ => 0
  f0 := fun _ => 0
  l0 := fun _ => 0
  k0 := fun _ => 0
  ind_c := fun _ => 0
  ind_t := fun _ => 0
  ind_c_n := 0
  ind_t_n := 0
  B := fun _ => 1
  P := fun _ => 0
  S := fun _ => 0
  rows := fun _ => 0
  cols := fun _ => 0
  vals := fun _ => 0
  nv := 0
  M := fun _ => 1
  factor := 1
  V := fun _ => 0
  inds := fun _ => 0
  indi := fun _ => 0
  indf := fun _ => 0
  EIx := fun _ => 0
  EIy := fun _ => 0
  beams := 0
  nb := 0

/-- DRX input for the masked-velocity counterexample: the single node is
fully masked (`B = 0`) but starts with `Vx = 5`, and its mass is `-1`, which
makes the first kinetic energy `Un = -25` drop below `Uo = 0` and triggers
the kinetic-damping reset. -/
def ex2 : DrxInput :=
  { drxBase with B := fun _ => 0, M := fun _ => -1,
                 V := fun j => if j = 0 then 5 else 0 }

/-- DRX input that runs exactly one iteration (the residual of the
equilibrium state is 0 <= tol) with room for more (`steps = 5`). -/
def ex3 : DrxInput := { drxBase with steps := 5 }

/-- DRX input with the nonzero, non-one summary flag 2. -/
def ex5 : DrxInput := { drxBase with summary := 2 }

/-- DRX input with summary flag 1. -/
def ex5b : DrxInput := { drxBase with summary := 1 }

/-- DRX input with `tol = 0`, for which `res` is initialized to
`1000 * 0 = 0` and the guard `res > tol` fails on entry. -/
def ex6 : DrxInput := { drxBase with tol := 0 }

/-- DRX input with a nonzero caller-supplied shear array `S` and no beams. -/
def ex9 : DrxInput := { drxBase with S := fun j => if j = 0 then 2 else 0 }

/-- The same DRX input with the initial shear array folded into the loads:
`P := P - S`, `S := 0`.  Used to state that with `beams = 0` a nonzero
caller-supplied `S` acts exactly as a constant additional load. -/
def c9Input (inp : DrxInput) : DrxInput :=
  { inp with P := fun j => inp.P j - inp.S j, S := fun _ => 0 }

/-- Axial forces for the unilateral-phase failing input: both edges are in
compression (`f = -1`). -/
def c1f : ℕ → ℝ := fun _ => -1

/-- Cartesian x-components for the unilateral-phase failing input: edge 0
carries 7, edge 1 carries 8. -/
def c1fx : ℕ → ℝ := fun i => if i = 0 then 7 else 8

/-- Fixed mask for the smoother witness: every vertex fixed. -/
def exSmFixed : ℕ → ℤ := fun _ => 1

/-- Vertex coordinates for the smoother witness. -/
def exSmVerts : ℕ → ℕ → ℝ := fun _ _ => 3

/-- A stand-in linear solver for the fd witnesses (the theorems hold for
every `solve`). -/
def exSolve : (ℕ → ℕ → ℝ) → (ℕ → ℕ → ℝ) → ℕ → ℕ → ℝ := fun _ _ _ _ => 0

/-- Vertex coordinates for the fd witnesses. -/
def exFdVerts : ℕ → ℕ → ℝ := fun _ _ => 4

/-- First free list for the fd read-prefix witness; agrees with
`exFdFree2` on index 0 only. -/
def exFdFree1 : ℕ → ℕ := fun b => if b = 0 then 1 else 7

/-- Second free list for the fd read-prefix witness. -/
def exFdFree2 : ℕ → ℕ := fun b => if b = 0 then 1 else 9

/-! ### Theorems -/

/-- Unfolding of the DRX while loop at zero fuel. -/
theorem drxLoop_zero (inp : DrxInput) (s : DrxState) : drxLoop inp 0 s = s := rfl

/-- Unfolding of the DRX while loop at positive fuel. -/
theorem drxLoop_succ (inp : DrxInput) (fuel : ℕ) (s : DrxState) :
    drxLoop inp (fuel + 1) s =
      if s.ts ≤ inp.steps ∧ s.res > inp.tol then drxLoop inp fuel (drxStep inp s)
      else s := rfl

/-- Unfolding of the DRX while loop at fuel one. -/
theorem drxLoop_one (inp : DrxInput) (s : DrxState) :
    drxLoop inp 1 s =
      if s.ts ≤ inp.steps ∧ s.res > inp.tol then drxStep inp s else s := rfl

/-- Claim C1: the unilateral tension phase of `drx_solver_c` indexes the
axial force and the force components by the loop counter, not through the
`ind_t` array.  With `ind_t = [1]` (`ind_t_n = 1`), both edges in
compression (`f = [-1, -1]`) and x-components `[7, 8]`, the phase zeroes
the unlisted edge 0 and leaves the listed edge 1 untouched — the opposite
of the documented "tension-only edges" semantics. -/
theorem drx_unilateral_misindex :
    unilateralT 1 c1f c1fx 0 = 0 ∧ unilateralT 1 c1f c1fx 1 = 8 := by
  constructor <;> norm_num [unilateralT, c1f, c1fx]

/-- A sweep never rewrites a vertex whose fixed flag is nonzero. -/
theorem smoothSweep_fixed (v : ℕ) (nbrs : ℕ → ℕ) (fixed : ℕ → ℤ)
    (neighbours : ℕ → ℕ → ℕ) (verts : ℕ → ℕ → ℝ) (i c : ℕ) (hf : fixed i ≠ 0) :
    smoothSweep v nbrs fixed neighbours verts i c = verts i c := by
  simp [smoothSweep, hf]

/-- Across any number of sweeps, a vertex with a nonzero fixed flag keeps
its coordinates. -/
theorem smoothGo_fixed (v : ℕ) (nbrs : ℕ → ℕ) (fixed : ℕ → ℤ)
    (neighbours : ℕ → ℕ → ℕ) (i c : ℕ) (hf : fixed i ≠ 0) :
    ∀ steps k verts,
      (smoothGo v nbrs fixed neighbours steps k verts).1 i c = verts i c := by
  intro steps
  induction steps with
  | zero => intro k verts; rfl
  | succ n ih =>
    intro k verts
    show (smoothGo v nbrs fixed neighbours n (k + 1) _).1 i c = _
    rw [ih]
    exact smoothSweep_fixed v nbrs fixed neighbours verts i c hf

/-- Claim C7: `smooth_centroid` never modifies the coordinates of a vertex
whose fixed flag is nonzero, for any number of sweeps; and a call with
`kmax = 0` returns the coordinates unchanged. -/
theorem smooth_fixed_preserved (v : ℕ) (nbrs : ℕ → ℕ) (fixed : ℕ → ℤ)
    (verts : ℕ → ℕ → ℝ) (neighbours : ℕ → ℕ → ℕ) (kmax i c : ℕ)
    (hf : fixed i ≠ 0) :
    (smooth_centroid v nbrs fixed verts neighbours kmax).1 i c = verts i c ∧
    (smooth_centroid v nbrs fixed verts neighbours 0).1 = verts := by
  exact ⟨smoothGo_fixed v nbrs fixed neighbours i c hf kmax 0 verts, rfl⟩

/-- Witness for C7 at a concrete fully-fixed one-vertex graph. -/
theorem smooth_fixed_preserved_witness :
    exSmFixed 0 ≠ 0 ∧
    ((smooth_centroid 1 (fun _ => 1) exSmFixed exSmVerts (fun _ _ => 0) 2).1 0 0 =
        exSmVerts 0 0 ∧
      (smooth_centroid 1 (fun _ => 1) exSmFixed exSmVerts (fun _ _ => 0) 0).1 =
        exSmVerts) :=
  ⟨by norm_num [exSmFixed],
   smooth_fixed_preserved 1 (fun _ => 1) exSmFixed exSmVerts (fun _ _ => 0) 2 0 0
     (by norm_num [exSmFixed])⟩

/-- The callback trace of the sweep loop starting at iteration index k. -/
theorem smoothGo_trace (v : ℕ) (nbrs : ℕ → ℕ) (fixed : ℕ → ℤ)
    (neighbours : ℕ → ℕ → ℕ) :
    ∀ steps k verts,
      (smoothGo v nbrs fixed neighbours steps k verts).2 = List.range' k steps := by
  intro steps
  induction steps with
  | zero => intro k verts; rfl
  | succ n ih =>
    intro k verts
    show k :: (smoothGo v nbrs fixed neighbours n (k + 1) _).2 = _
    rw [ih, List.range'_succ]

/-- Claim C3 (amended): of the three solvers only `smooth_centroid` takes a
per-iteration callback; it invokes it exactly once per sweep, with the
zero-based iteration indices `0, 1, ..., kmax-1` in strictly increasing
order (the trace is `List.range kmax`). -/
theorem smooth_callback_trace (v : ℕ) (nbrs : ℕ → ℕ) (fixed : ℕ → ℤ)
    (verts : ℕ → ℕ → ℝ) (neighbours : ℕ → ℕ → ℕ) (kmax : ℕ) :
    (smooth_centroid v nbrs fixed verts neighbours kmax).2 = List.range kmax := by
  rw [List.range_eq_range']
  exact smoothGo_trace v nbrs fixed neighbours kmax 0 verts

/-- Claim C5 (amended): the DRX progress line, carrying `ts - 1` and the
final residual, is emitted exactly when `summary = 1`; any other summary
value (including nonzero ones) produces no output. -/
theorem drx_summary_line (inp : DrxInput) :
    (inp.summary = 1 →
      drxOutput inp = some ((drxRun inp).ts - 1, (drxRun inp).res)) ∧
    (inp.summary ≠ 1 → drxOutput inp = none) := by
  constructor <;> intro h <;> simp [drxOutput, h]

/-- Counterexample for C5 as stated: `summary = 2` is nonzero, yet
`drx_solver_c` prints nothing, because the source tests `summary == 1`. -/
theorem drx_summary_line_cex : ex5.summary ≠ 0 ∧ drxOutput ex5 = none := by
  constructor
  · norm_num [ex5, drxBase]
  · simp [drxOutput, ex5, drxBase]

/-- Witness for the amended C5 at `summary = 1`. -/
theorem drx_summary_line_witness :
    ex5b.summary = 1 ∧
      drxOutput ex5b = some ((drxRun ex5b).ts - 1, (drxRun ex5b).res) :=
  ⟨rfl, (drx_summary_line ex5b).1 rfl⟩

/-- The while loop never decreases the iteration counter. -/
theorem drxLoop_ts_le (inp : DrxInput) :
    ∀ fuel s, s.ts ≤ (drxLoop inp fuel s).ts := by
  intro fuel
  induction fuel with
  | zero => intro s; exact le_refl _
  | succ n ih =>
    intro s
    rw [drxLoop_succ]
    split
    · exact le_trans (by omega : s.ts ≤ s.ts + 1) (ih (drxStep inp s))
    · exact le_refl _

/-- Claim C6 (amended): for every positive tolerance and every
`steps >= 0`, the DRX main loop body executes at least once, because `res`
is initialized to `1000 * tol > tol` and the guard `ts <= steps` holds at
entry.  (For `tol <= 0` the initialization does not satisfy the guard.) -/
theorem drx_loop_enters (inp : DrxInput) (htol : 0 < inp.tol)
    (hsteps : 0 ≤ inp.steps) : 1 ≤ (drxRun inp).ts := by
  have hfuel : drxFuel inp = inp.steps.toNat + 1 := by
    unfold drxFuel; omega
  rw [drxRun, hfuel, drxLoop_succ]
  rw [if_pos ⟨by simpa [drxInit] using hsteps, by simp [drxInit]; nlinarith⟩]
  have h1 : (drxStep inp (drxInit inp)).ts = 1 := by
    simp [drxStep, drxInit]
  calc (1 : ℤ) = (drxStep inp (drxInit inp)).ts := h1.symm
    _ ≤ _ := drxLoop_ts_le inp _ _

/-- Counterexample for C6 as stated: with `tol = 0` (and `steps = 0 >= 0`)
the initial residual is `1000 * 0 = 0`, the guard `res > tol` fails on
entry, and the loop body never executes (`ts` stays 0). -/
theorem drx_loop_enters_cex :
    ex6.tol = 0 ∧ 0 ≤ ex6.steps ∧ (drxRun ex6).ts = 0 := by
  refine ⟨rfl, by norm_num [ex6, drxBase], ?_⟩
  have hfuel : drxFuel ex6 = 1 := rfl
  rw [drxRun, hfuel, drxLoop_one, if_neg]
  · rfl
  · rintro ⟨-, hres⟩
    rw [drxInit] at hres
    norm_num [ex6, drxBase] at hres

/-- Witness for the amended C6 at the base input (`tol = 1 > 0`,
`steps = 0`). -/
theorem drx_loop_enters_witness :
    0 < drxBase.tol ∧ 0 ≤ drxBase.steps ∧ 1 ≤ (drxRun drxBase).ts :=
  ⟨by norm_num [drxBase], by norm_num [drxBase],
   drx_loop_enters drxBase (by norm_num [drxBase]) (by norm_num [drxBase])⟩

/-- The velocity-update step leaves a DOF with `B[j] = 0` unchanged: its
residual is multiplied by the zero mask. -/
theorem drxVnew_masked (inp : DrxInput) (X S V : ℕ → ℝ) (j : ℕ)
    (hB : inp.B j = 0) : drxVnew inp X S V j = V j := by
  simp [drxVnew, drxR, hB]

/-- After one full iteration, a masked DOF's velocity is either unchanged
or zeroed by the kinetic-damping reset. -/
theorem drxStep_V_masked (inp : DrxInput) (s : DrxState) (j : ℕ)
    (hB : inp.B j = 0) :
    (drxStep inp s).V j = s.V j ∨ (drxStep inp s).V j = 0 := by
  have h : (drxStep inp s).V j = drxV2 inp s j := rfl
  rw [h]
  unfold drxV2
  split
  · by_cases hj : j < 3 * inp.n
    · right; simp [hj]
    · left; simp [hj, drxVnew_masked inp s.X (drxS2 inp s) s.V j hB]
  · left; exact drxVnew_masked inp s.X (drxS2 inp s) s.V j hB

/-- Claim C2 (amended): for a DOF j with `B[j] = 0`, the velocity update
never changes `V[j]`; throughout the run `V[j]` is either its input value
or 0, the latter only through the kinetic-damping reset, which zeroes all
3n velocity entries regardless of the mask. -/
theorem drx_masked_velocity (inp : DrxInput) (j : ℕ) (hB : inp.B j = 0) :
    (∀ X S V, drxVnew inp X S V j = V j) ∧
    (∀ fuel, (drxLoop inp fuel (drxInit inp)).V j = inp.V j ∨
      (drxLoop inp fuel (drxInit inp)).V j = 0) := by
  constructor
  · intro X S V; exact drxVnew_masked inp X S V j hB
  · have key : ∀ fuel s, (s.V j = inp.V j ∨ s.V j = 0) →
        ((drxLoop inp fuel s).V j = inp.V j ∨ (drxLoop inp fuel s).V j = 0) := by
      intro fuel
      induction fuel with
      | zero => intro s hs; exact hs
      | succ n ih =>
        intro s hs
        rw [drxLoop_succ]
        split
        · apply ih
          rcases drxStep_V_masked inp s j hB with h | h
          · rw [h]; exact hs
          · right; exact h
        · exact hs
    intro fuel
    exact key fuel (drxInit inp) (Or.inl rfl)

/-- Witness for the amended C2 at the concrete input `ex2`. -/
theorem drx_masked_velocity_witness :
    ex2.B 0 = 0 ∧
    drxVnew ex2 (fun _ => 0) (fun _ => 0) (fun _ => 0) 0 = 0 ∧
    ((drxLoop ex2 1 (drxInit ex2)).V 0 = ex2.V 0 ∨
      (drxLoop ex2 1 (drxInit ex2)).V 0 = 0) :=
  ⟨rfl, (drx_masked_velocity ex2 0 rfl).1 (fun _ => 0) (fun _ => 0) (fun _ => 0),
   (drx_masked_velocity ex2 0 rfl).2 1⟩

/-- Counterexample for C2 as stated: in `ex2` the DOF 0 is masked
(`B[0] = 0`) and enters with velocity 5, but the first iteration's
kinetic-damping reset (triggered because `Un = -25 < Uo = 0` with the
negative mass `M = -1`) zeroes it: the run does change `V[0]`. -/
theorem drx_masked_velocity_cex :
    ex2.B 0 = 0 ∧ ex2.V 0 = 5 ∧ (drxRun ex2).V 0 = 0 := by
  refine ⟨rfl, rfl, ?_⟩
  have hfuel : drxFuel ex2 = 1 := rfl
  rw [drxRun, hfuel, drxLoop_one,
    if_pos ⟨by norm_num [drxInit, ex2, drxBase],
      by norm_num [drxInit, ex2, drxBase]⟩]
  have hB : ∀ j, ex2.B j = 0 := fun j => rfl
  have hVnew : ∀ j, drxVnew ex2 (drxInit ex2).X (drxS2 ex2 (drxInit ex2))
      (drxInit ex2).V j = (drxInit ex2).V j :=
    fun j => drxVnew_masked ex2 _ _ _ j (hB j)
  have hUn : drxUn ex2 (drxInit ex2).X (drxS2 ex2 (drxInit ex2))
      (drxInit ex2).V = -25 := by
    rw [drxUn, show ex2.n = 1 from rfl, Finset.sum_range_one,
      hVnew (3 * 0), hVnew (3 * 0 + 1), hVnew (3 * 0 + 2)]
    norm_num [drxInit, ex2, drxBase, gsl_pow_2]
  have hgoal : (drxStep ex2 (drxInit ex2)).V 0 = drxV2 ex2 (drxInit ex2) 0 := rfl
  rw [hgoal]
  unfold drxV2
  rw [hUn, if_pos (by norm_num [drxInit] : (-25 : ℝ) < (drxInit ex2).Uo)]
  norm_num [ex2, drxBase]

/-- Counterexample for C3 as stated: `drx_solver_c` has no callback
parameter and performs no per-iteration call; its only external call site
is the terminal summary print.  In the run `ex3` exactly one iteration
executes (`ts = 1`), yet nothing at all is emitted (`summary = 0`), so no
per-iteration notification with `k = 0` ever happens. -/
theorem drx_no_callback_cex :
    (drxRun ex3).ts = 1 ∧ drxOutput ex3 = none := by
  constructor
  · have hfuel : drxFuel ex3 = 5 + 1 := rfl
    rw [drxRun, hfuel, drxLoop_succ,
      if_pos ⟨by norm_num [drxInit, ex3, drxBase],
        by norm_num [drxInit, ex3, drxBase]⟩]
    have hS : drxS2 ex3 (drxInit ex3) = (drxInit ex3).S := by
      simp [drxS2, beamPhase, ex3, drxBase]
    have hR : ∀ j, drxR ex3 (drxInit ex3).X (drxS2 ex3 (drxInit ex3)) j = 0 := by
      intro j
      rw [drxR, hS]
      norm_num [fr, frAccum, drxInit, ex3, drxBase]
    have hres : (drxStep ex3 (drxInit ex3)).res = 0 := by
      have h0 : (drxStep ex3 (drxInit ex3)).res =
          drxRn ex3 (drxInit ex3).X (drxS2 ex3 (drxInit ex3)) / ((ex3.n : ℕ) : ℝ) := rfl
      rw [h0, drxRn, show ex3.n = 1 from rfl, Finset.sum_range_one,
        hR (3 * 0), hR (3 * 0 + 1), hR (3 * 0 + 2)]
      norm_num [gsl_hypot3]
    rw [show (5 : ℕ) = 4 + 1 from rfl, drxLoop_succ, if_neg]
    · rfl
    · rintro ⟨-, h⟩
      rw [hres] at h
      exact absurd h (by norm_num [ex3, drxBase])
  · simp [drxOutput, ex3, drxBase]

/-- Folding the initial shear into the loads leaves the sparse-scatter
arrays untouched. -/
theorem fr_c9 (inp : DrxInput) (X : ℕ → ℝ) (c : ℕ) :
    fr (c9Input inp) X c = fr inp X c := rfl

/-- The DOF residual of the shifted input with zero shear state equals the
residual of the original input with shear state `inp.S`. -/
theorem drxR_c9 (inp : DrxInput) (X : ℕ → ℝ) (j : ℕ) :
    drxR (c9Input inp) X (fun _ => 0) j = drxR inp X inp.S j := by
  unfold drxR
  rw [fr_c9]
  simp [c9Input]

/-- Velocity update under the shift. -/
theorem drxVnew_c9 (inp : DrxInput) (X V : ℕ → ℝ) (j : ℕ) :
    drxVnew (c9Input inp) X (fun _ => 0) V j = drxVnew inp X inp.S V j := by
  unfold drxVnew
  rw [drxR_c9]
  simp [c9Input]

/-- Residual norm under the shift. -/
theorem drxRn_c9 (inp : DrxInput) (X : ℕ → ℝ) :
    drxRn (c9Input inp) X (fun _ => 0) = drxRn inp X inp.S := by
  unfold drxRn
  simp only [drxR_c9]
  simp [c9Input]

/-- Kinetic energy under the shift. -/
theorem drxUn_c9 (inp : DrxInput) (X V : ℕ → ℝ) :
    drxUn (c9Input inp) X (fun _ => 0) V = drxUn inp X inp.S V := by
  unfold drxUn
  simp only [drxVnew_c9]
  simp [c9Input]

/-- One iteration preserves the correspondence between a run whose state
shear stays `inp.S` and the shifted run whose state shear stays zero. -/
theorem drxStep_c9 (inp : DrxInput) (hb : inp.beams = 0) (s t : DrxState)
    (hX : s.X = t.X) (hV : s.V = t.V) (hUo : s.Uo = t.Uo) (hts : s.ts = t.ts)
    (hS : s.S = inp.S) (hT : t.S = fun _ => 0) :
    (drxStep inp s).X = (drxStep (c9Input inp) t).X ∧
    (drxStep inp s).V = (drxStep (c9Input inp) t).V ∧
    (drxStep inp s).Uo = (drxStep (c9Input inp) t).Uo ∧
    (drxStep inp s).res = (drxStep (c9Input inp) t).res ∧
    (drxStep inp s).ts = (drxStep (c9Input inp) t).ts ∧
    (drxStep inp s).S = inp.S ∧
    ((drxStep (c9Input inp) t).S = fun _ => 0) := by
  have hS2s : drxS2 inp s = inp.S := by
    simp [drxS2, beamPhase, hb, hS]
  have hbeams : (c9Input inp).beams = 0 := hb
  have hS2t : drxS2 (c9Input inp) t = fun _ => 0 := by
    simp [drxS2, beamPhase, hbeams, hT]
  have hV2 : drxV2 inp s = drxV2 (c9Input inp) t := by
    unfold drxV2
    rw [hS2s, hS2t, hX, hV, hUo, drxUn_c9]
    by_cases hC : drxUn inp t.X inp.S t.V < t.Uo
    · rw [if_pos hC, if_pos hC]
      funext j
      rw [drxVnew_c9]
      rfl
    · rw [if_neg hC, if_neg hC]
      funext j
      rw [drxVnew_c9]
  refine ⟨?_, ?_, ?_, ?_, ?_, ?_, ?_⟩
  · show (fun j => if j < 3 * inp.n then s.X j + drxV2 inp s j else s.X j) =
      (fun j => if j < 3 * (c9Input inp).n then t.X j + drxV2 (c9Input inp) t j
        else t.X j)
    rw [hX, hV2]
    rfl
  · show drxV2 inp s = drxV2 (c9Input inp) t
    exact hV2
  · show drxUn inp s.X (drxS2 inp s) s.V =
      drxUn (c9Input inp) t.X (drxS2 (c9Input inp) t) t.V
    rw [hS2s, hS2t, hX, hV, drxUn_c9]
  · show drxRn inp s.X (drxS2 inp s) / (inp.n : ℝ) =
      drxRn (c9Input inp) t.X (drxS2 (c9Input inp) t) / ((c9Input inp).n : ℝ)
    rw [hS2s, hS2t, hX, drxRn_c9]
    rfl
  · show s.ts + 1 = t.ts + 1
    rw [hts]
  · show drxS2 inp s = inp.S
    exact hS2s
  · show drxS2 (c9Input inp) t = fun _ => 0
    exact hS2t

/-- The correspondence of `drxStep_c9`, propagated through the whole while
loop. -/
theorem drxLoop_c9 (inp : DrxInput) (hb : inp.beams = 0) :
    ∀ fuel (s t : DrxState), s.X = t.X → s.V = t.V → s.Uo = t.Uo →
      s.res = t.res → s.ts = t.ts → s.S = inp.S → (t.S = fun _ => 0) →
      ((drxLoop inp fuel s).X = (drxLoop (c9Input inp) fuel t).X ∧
       (drxLoop inp fuel s).V = (drxLoop (c9Input inp) fuel t).V ∧
       (drxLoop inp fuel s).res = (drxLoop (c9Input inp) fuel t).res ∧
       (drxLoop inp fuel s).ts = (drxLoop (c9Input inp) fuel t).ts ∧
       (drxLoop inp fuel s).S = inp.S ∧
       ((drxLoop (c9Input inp) fuel t).S = fun _ => 0)) := by
  intro fuel
  induction fuel with
  | zero => intro s t hX hV hUo hres hts hS hT; exact ⟨hX, hV, hres, hts, hS, hT⟩
  | succ n ih =>
    intro s t hX hV hUo hres hts hS hT
    rw [drxLoop_succ, drxLoop_succ]
    by_cases hg : s.ts ≤ inp.steps ∧ s.res > inp.tol
    · have hg2 : t.ts ≤ (c9Input inp).steps ∧ t.res > (c9Input inp).tol := by
        rw [← hts, ← hres]; exact hg
      rw [if_pos hg, if_pos hg2]
      obtain ⟨h1, h2, h3, h4, h5, h6, h7⟩ := drxStep_c9 inp hb s t hX hV hUo hts hS hT
      exact ih (drxStep inp s) (drxStep (c9Input inp) t) h1 h2 h3 h4 h5 h6 h7
    · have hg2 : ¬(t.ts ≤ (c9Input inp).steps ∧ t.res > (c9Input inp).tol) := by
        rw [← hts, ← hres]; exact hg
      rw [if_neg hg, if_neg hg2]
      exact ⟨hX, hV, hres, hts, hS, hT⟩

/-- Claim C9: with `beams = 0` the DRX solver never writes the shear array
(`S` is returned exactly as supplied), yet reads it in every residual:
running with loads `P` and shear `S` produces the same positions,
velocities, residual and step count as running with loads `P - S` and zero
shear, i.e. a nonzero caller-supplied `S` acts as a constant additional
load rather than being ignored. -/
theorem drx_S_as_load (inp : DrxInput) (hb : inp.beams = 0) :
    (drxRun inp).S = inp.S ∧
    (drxRun (c9Input inp)).X = (drxRun inp).X ∧
    (drxRun (c9Input inp)).V = (drxRun inp).V ∧
    (drxRun (c9Input inp)).res = (drxRun inp).res ∧
    (drxRun (c9Input inp)).ts = (drxRun inp).ts := by
  have h := drxLoop_c9 inp hb (drxFuel inp) (drxInit inp) (drxInit (c9Input inp))
    rfl rfl rfl rfl rfl rfl rfl
  exact ⟨h.2.2.2.2.1, h.1.symm, h.2.1.symm, h.2.2.1.symm, h.2.2.2.1.symm⟩

/-- Witness for C9 at the concrete no-beam input `ex9` with nonzero `S`. -/
theorem drx_S_as_load_witness :
    ex9.beams = 0 ∧
    ((drxRun ex9).S = ex9.S ∧
     (drxRun (c9Input ex9)).X = (drxRun ex9).X ∧
     (drxRun (c9Input ex9)).V = (drxRun ex9).V ∧
     (drxRun (c9Input ex9)).res = (drxRun ex9).res ∧
     (drxRun (c9Input ex9)).ts = (drxRun ex9).ts) :=
  ⟨rfl, drx_S_as_load ex9 rfl⟩

/-- The fd write-back loop leaves every row untouched whose index is not
among the first k entries of `free`. -/
theorem fdWrite_skip (free : ℕ → ℕ) (Xi : ℕ → ℕ → ℝ) :
    ∀ k (verts : ℕ → ℕ → ℝ) (i c : ℕ), (∀ b, b < k → free b ≠ i) →
      fdWrite free Xi k verts i c = verts i c := by
  intro k
  induction k with
  | zero => intro verts i c _; rfl
  | succ n ih =>
    intro verts i c h
    show (if i = free n ∧ c < 3 then Xi n c else fdWrite free Xi n verts i c) =
      verts i c
    rw [if_neg]
    · exact ih verts i c fun b hb => h b (Nat.lt_succ_of_lt hb)
    · rintro ⟨hi, -⟩
      exact h n (Nat.lt_succ_self n) hi.symm

/-- Claim C8: for disjoint `fixed` and `free` index lists, `fd` leaves the
coordinates of every vertex listed in `fixed` exactly as supplied, and more
generally writes only rows whose index appears among the first
`numv - numfix` entries of `free` — for any linear solver `solve`. -/
theorem fd_fixed_rows (solve : (ℕ → ℕ → ℝ) → (ℕ → ℕ → ℝ) → ℕ → ℕ → ℝ)
    (numv nume numfix : ℕ) (vertices : ℕ → ℕ → ℝ) (edges : ℕ → ℕ → ℕ)
    (loads : ℕ → ℕ → ℝ) (q : ℕ → ℝ) (fixed free : ℕ → ℕ) (a i c : ℕ)
    (ha : a < numfix)
    (hdisj : ∀ x y, x < numfix → y < numv - numfix → fixed x ≠ free y)
    (hni : ∀ b, b < numv - numfix → free b ≠ i) :
    fd solve numv nume numfix vertices edges loads q fixed free (fixed a) c =
      vertices (fixed a) c ∧
    fd solve numv nume numfix vertices edges loads q fixed free i c =
      vertices i c := by
  constructor
  · exact fdWrite_skip free _ (numv - numfix) vertices (fixed a) c
      fun b hb => (hdisj a b ha hb).symm
  · exact fdWrite_skip free _ (numv - numfix) vertices i c hni

/-- Witness for C8: two vertices, vertex 0 fixed, vertex 1 free; rows 0 and
2 are untouched. -/
theorem fd_fixed_rows_witness :
    (0 : ℕ) < 1 ∧
    (fd exSolve 2 1 1 exFdVerts (fun _ _ => 0) (fun _ _ => 0) (fun _ => 1)
        (fun _ => 0) (fun _ => 1) 0 0 = exFdVerts 0 0 ∧
      fd exSolve 2 1 1 exFdVerts (fun _ _ => 0) (fun _ _ => 0) (fun _ => 1)
        (fun _ => 0) (fun _ => 1) 2 0 = exFdVerts 2 0) :=
  ⟨by norm_num,
   fd_fixed_rows exSolve 2 1 1 exFdVerts (fun _ _ => 0) (fun _ _ => 0)
     (fun _ => 1) (fun _ => 0) (fun _ => 1) 0 2 0 (by norm_num)
     (by intro x y hx hy; norm_num) (by intro b hb; norm_num)⟩

/-- Two write-back loops with the same solution rows and free lists that
agree below k produce identical results. -/
theorem fdWrite_congr (free1 free2 : ℕ → ℕ) (Xi1 Xi2 : ℕ → ℕ → ℝ)
    (hXi : Xi1 = Xi2) :
    ∀ k (verts : ℕ → ℕ → ℝ), (∀ b, b < k → free1 b = free2 b) →
      fdWrite free1 Xi1 k verts = fdWrite free2 Xi2 k verts := by
  subst hXi
  intro k
  induction k with
  | zero => intro verts _; rfl
  | succ n ih =>
    intro verts h
    funext i c
    show (if i = free1 n ∧ c < 3 then Xi1 n c else fdWrite free1 Xi1 n verts i c) =
      (if i = free2 n ∧ c < 3 then Xi1 n c else fdWrite free2 Xi1 n verts i c)
    rw [h n (Nat.lt_succ_self n),
      ih verts fun b hb => h b (Nat.lt_succ_of_lt hb)]

/-- Claim C10: `fd` derives the number of free vertices as `numv - numfix`
and reads only the first `numv - numfix` entries of `free`: two calls whose
free lists agree on those entries return identical coordinates, whatever
the entries beyond that prefix are — for any linear solver `solve`. -/
theorem fd_free_agree (solve : (ℕ → ℕ → ℝ) → (ℕ → ℕ → ℝ) → ℕ → ℕ → ℝ)
    (numv nume numfix : ℕ) (vertices : ℕ → ℕ → ℝ) (edges : ℕ → ℕ → ℕ)
    (loads : ℕ → ℕ → ℝ) (q : ℕ → ℝ) (fixed : ℕ → ℕ) (free1 free2 : ℕ → ℕ)
    (h : ∀ i, i < numv - numfix → free1 i = free2 i) :
    fd solve numv nume numfix vertices edges loads q fixed free1 =
    fd solve numv nume numfix vertices edges loads q fixed free2 := by
  have hPi : fdPi numv numfix loads free1 = fdPi numv numfix loads free2 := by
    funext r c
    unfold fdPi
    split_ifs with hc
    · rw [h r hc.1]
    · rfl
  have hCi : fdCi nume numv numfix edges free1 = fdCi nume numv numfix edges free2 := by
    funext r c
    unfold fdCi
    split_ifs with hc
    · rw [h c hc.2]
    · rfl
  have hA : fdA numv nume numfix edges q free1 = fdA numv nume numfix edges q free2 := by
    unfold fdA
    rw [hCi]
  have hb2 : fdb numv nume numfix vertices edges loads q fixed free1 =
      fdb numv nume numfix vertices edges loads q fixed free2 := by
    unfold fdb
    funext r c
    rw [hPi, hCi]
  exact fdWrite_congr free1 free2 _ _ (by rw [hA, hb2]) (numv - numfix) vertices h

/-- Witness for C10: the two free lists agree only on the read prefix
(index 0) and differ beyond it, yet fd returns identical coordinates. -/
theorem fd_free_agree_witness :
    exFdFree1 0 = exFdFree2 0 ∧
    fd exSolve 2 1 1 exFdVerts (fun _ _ => 0) (fun _ _ => 0) (fun _ => 1)
        (fun _ => 0) exFdFree1 =
      fd exSolve 2 1 1 exFdVerts (fun _ _ => 0) (fun _ _ => 0) (fun _ => 1)
        (fun _ => 0) exFdFree2 :=
  ⟨rfl,
   fd_free_agree exSolve 2 1 1 exFdVerts (fun _ _ => 0) (fun _ _ => 0)
     (fun _ => 1) (fun _ => 0) exFdFree1 exFdFree2
     (by intro i hi
         have h0 : i = 0 := by omega
         subst h0
         rfl)⟩

end Compas
